import Mathlib

/-!
# Verification of the mcp-server-manager synchronization and validation engine

Shallow embedding of the core services of `mcp-server-manager` (Go):
transport detection and server-config validation
(`internal/services/validator_server.go`, `internal/services/validator.go`
variants), whole-registry validation, the client-config projector
(`internal/services/client_config.go`) and the manager orchestration
(`internal/services/mcp_manager.go`).

Go's dynamic `interface{}` values (as produced by `encoding/json` /
`yaml.v3` decoding) are modelled by the inductive `JVal`; Go maps are
modelled as association lists (first-match lookup, update-in-place or
append on insert).  External collaborators (`exec.LookPath`, `net/url`
parsing, the real filesystem and clock) are parameters: a `String → Bool`
PATH oracle, a URL-parse oracle, a pure association-list filesystem, and
an opaque timestamp string.
-/

namespace MCPSM

/-- A dynamically typed Go value (`interface{}`), as produced by JSON or
YAML decoding.  `jInt` is a Go `int`, `jNum` a Go `float64` (modelled as a
rational); the two are distinct dynamic types, exactly as in Go, so a type
assertion `.(int)` succeeds only on `jInt`. -/
inductive JVal where
  | jNull : JVal
  | jBool (b : Bool) : JVal
  | jInt (n : Int) : JVal
  | jNum (q : Rat) : JVal
  | jStr (s : String) : JVal
  | jArr (elems : List JVal) : JVal
  | jObj (fields : List (String × JVal)) : JVal
deriving Repr

/-- A Go `map[string]V` value, as an insertion-ordered association list. -/
abbrev AMap (V : Type) := List (String × V)

/-- First-match lookup in an association map (Go `m[k]`, comma-ok form). -/
def alookup {κ V : Type} [DecidableEq κ] : List (κ × V) → κ → Option V
  | [], _ => none
  | (k', v) :: rest, k => if k' = k then some v else alookup rest k

/-- Go `m[k] = v`: replace the binding in place if the key is present,
otherwise append a new binding. -/
def aset {κ V : Type} [DecidableEq κ] : List (κ × V) → κ → V → List (κ × V)
  | [], k, v => [(k, v)]
  | (k', v') :: rest, k, v =>
    if k' = k then (k, v) :: rest else (k', v') :: aset rest k v

/-- Go `delete(m, k)`: remove every binding for the key. -/
def adel {κ V : Type} [DecidableEq κ] : List (κ × V) → κ → List (κ × V)
  | [], _ => []
  | (k', v') :: rest, k =>
    if k' = k then adel rest k else (k', v') :: adel rest k

/-- One of the whitespace characters recognised by Go `strings.TrimSpace`
(the ASCII fragment of Unicode White_Space, which is all that appears in
the configurations this program handles). -/
def isGoSpace (c : Char) : Bool :=
  c = ' ' || c = '\t' || c = '\n' || c = '\r' || c = '\x0b' || c = '\x0c'

/-- Model of Go `strings.TrimSpace`: drop leading and trailing whitespace. -/
def goTrimSpace (s : String) : String :=
  String.mk (((s.toList.dropWhile isGoSpace).reverse.dropWhile isGoSpace).reverse)

/-- MCP transport kinds (`TransportType` in `validator_server.go`). -/
inductive TransportType where
  | transportNone : TransportType
  | transportCommand : TransportType
  | transportURL : TransportType
  | transportHTTP : TransportType
deriving Repr, DecidableEq

/-- Result of `net/url.Parse` as far as the validator inspects it:
the scheme and the host component. -/
structure URLParts where
  scheme : String
  host : String
deriving Repr, DecidableEq

/-- External collaborators of the validator: `exec.LookPath` (does a
command resolve on the search path?) and `net/url.Parse` (`none` models a
parse error). -/
structure Oracles where
  pathHas : String → Bool
  parseURL : String → Option URLParts

/-- Validation errors of a single server configuration, one constructor
per `fmt.Errorf` site, carrying the data interpolated into the message. -/
inductive VErr where
  | emptyServerName : VErr
  | noTransportType : VErr
  | multipleTransportTypes (count : Nat) : VErr
  | commandNotFound (cmd : String) : VErr
  | urlParseError (value : String) : VErr
  | urlMissingScheme (value : String) : VErr
  | urlMissingHost (value : String) : VErr
  | urlBadScheme (value : String) (scheme : String) : VErr
  | negativeTimeout : VErr
  | emptyEnvKey : VErr
  | envKeyContainsEquals : VErr
  | emptyEnvValue (key : String) : VErr
deriving Repr, DecidableEq

/-- `extractTransportValue` (`validator_server.go`): fetch a key from the
config; a missing key, a `nil` value, or a non-string value yields `""`;
a string value is returned trimmed. -/
def extractTransportValue (config : AMap JVal) (key : String) : String :=
  match alookup config key with
  | none => ""
  | some JVal.jNull => ""
  | some (JVal.jStr s) => goTrimSpace s
  | some _ => ""

/-- The three transport candidate keys in the fixed order the code
inspects them (`detectTransportType` in `validator_server.go`). -/
def transportCandidates : List (String × TransportType) :=
  [("command", TransportType.transportCommand),
   ("url", TransportType.transportURL),
   ("httpUrl", TransportType.transportHTTP)]

/-- `detectTransportType` (`validator_server.go`): collect the candidates
whose extracted value is non-empty, then require exactly one. -/
def detectTransportType (config : AMap JVal) :
    Except VErr (TransportType × String) :=
  let found := transportCandidates.filterMap (fun c =>
    let value := extractTransportValue config c.1
    if value = "" then none else some (c.2, value))
  match found with
  | [] => Except.error VErr.noTransportType
  | [f] => Except.ok f
  | fs => Except.error (VErr.multipleTransportTypes fs.length)

/-- `validateURL` (`validator_server.go`): parse, then require a scheme,
a host, and an `http`/`https` scheme, in that order. -/
def validateURL (o : Oracles) (urlStr : String) : Except VErr Unit :=
  match o.parseURL urlStr with
  | none => Except.error (VErr.urlParseError urlStr)
  | some p =>
    if p.scheme = "" then Except.error (VErr.urlMissingScheme urlStr)
    else if p.host = "" then Except.error (VErr.urlMissingHost urlStr)
    else if p.scheme ≠ "http" && p.scheme ≠ "https" then
      Except.error (VErr.urlBadScheme urlStr p.scheme)
    else Except.ok ()

/-- `validateTransportValue` (`validator_server.go`): command transports
must resolve on the search path, URL transports must pass `validateURL`. -/
def validateTransportValue (o : Oracles) (t : TransportType) (value : String) :
    Except VErr Unit :=
  match t with
  | TransportType.transportCommand =>
    if o.pathHas value then Except.ok ()
    else Except.error (VErr.commandNotFound value)
  | TransportType.transportURL => validateURL o value
  | TransportType.transportHTTP => validateURL o value
  | TransportType.transportNone => Except.ok ()

/-- `validateTimeout` (`validator_server.go`): only a value that is a Go
`int` (type assertion `.(int)`) and negative is rejected; absent, `nil`,
non-`int` (in particular `float64`) and non-negative values pass. -/
def validateTimeout (config : AMap JVal) : Except VErr Unit :=
  match alookup config "timeout" with
  | none => Except.ok ()
  | some JVal.jNull => Except.ok ()
  | some (JVal.jInt n) =>
    if n < 0 then Except.error VErr.negativeTimeout else Except.ok ()
  | some _ => Except.ok ()

/-- One entry of the `env` map: key non-blank, key free of `=`, value a
non-blank string (`validateEnvironmentVariables` loop body). -/
def checkEnvEntry (kv : String × JVal) : Except VErr Unit :=
  if goTrimSpace kv.1 = "" then Except.error VErr.emptyEnvKey
  else if kv.1.toList.contains '=' then Except.error VErr.envKeyContainsEquals
  else
    match kv.2 with
    | JVal.jStr s =>
      if goTrimSpace s = "" then Except.error (VErr.emptyEnvValue kv.1)
      else Except.ok ()
    | _ => Except.error (VErr.emptyEnvValue kv.1)

/-- First failure of `checkEnvEntry` over the entries of the env map. -/
def checkEnvEntries : List (String × JVal) → Except VErr Unit
  | [] => Except.ok ()
  | kv :: rest =>
    match checkEnvEntry kv with
    | Except.error e => Except.error e
    | Except.ok _ => checkEnvEntries rest

/-- `validateEnvironmentVariables` (`validator_server.go`): absent, `nil`
or non-map `env` passes; otherwise every entry must pass `checkEnvEntry`. -/
def validateEnvironmentVariables (config : AMap JVal) : Except VErr Unit :=
  match alookup config "env" with
  | none => Except.ok ()
  | some JVal.jNull => Except.ok ()
  | some (JVal.jObj envMap) => checkEnvEntries envMap
  | some _ => Except.ok ()

/-- `ValidateMCPServerConfig` (`validator_server.go`): name, transport
detection, transport value, timeout, env, short-circuiting in that order. -/
def validateMCPServerConfig (o : Oracles) (serverName : String)
    (config : AMap JVal) : Except VErr Unit :=
  if goTrimSpace serverName = "" then Except.error VErr.emptyServerName
  else
    match detectTransportType config with
    | Except.error e => Except.error e
    | Except.ok tv =>
      match validateTransportValue o tv.1 tv.2 with
      | Except.error e => Except.error e
      | Except.ok _ =>
        match validateTimeout config with
        | Except.error e => Except.error e
        | Except.ok _ => validateEnvironmentVariables config

/-- Specification-side presence test for a transport candidate key:
the claim counts a candidate as present exactly when its value is a
string that is non-empty after trimming whitespace. -/
def candidatePresent (config : AMap JVal) (key : String) : Bool :=
  match alookup config key with
  | some (JVal.jStr s) => goTrimSpace s ≠ ""
  | _ => false

/-- Number of present transport candidates among the three keys. -/
def presentCount (config : AMap JVal) : Nat :=
  (transportCandidates.filter (fun c => candidatePresent config c.1)).length

instance instDecEqExcept {ε α : Type} [DecidableEq ε] [DecidableEq α] :
    DecidableEq (Except ε α) := fun x y =>
  match x, y with
  | Except.ok a, Except.ok b =>
    if h : a = b then isTrue (by rw [h])
    else isFalse (fun hc => h (Except.ok.inj hc))
  | Except.error e, Except.error f =>
    if h : e = f then isTrue (by rw [h])
    else isFalse (fun hc => h (Except.error.inj hc))
  | Except.ok _, Except.error _ => isFalse (fun hc => Except.noConfusion hc)
  | Except.error _, Except.ok _ => isFalse (fun hc => Except.noConfusion hc)

/-- A client entry (`models.Client`): its config file path and the list of
server names enabled for it. -/
structure Client where
  configPath : String
  enabled : List String
deriving Repr, DecidableEq

/-- A registry server entry (`models.MCPServer`, ordered-list generation):
a name plus an open config mapping. -/
structure MCPServer where
  name : String
  config : AMap JVal
deriving Repr

/-- The central registry (`models.Config`, ordered-server generation):
an ordered list of servers, a map from client name to client, a port. -/
structure ConfigR where
  mcpServers : List MCPServer
  clients : AMap Client
  serverPort : Int
deriving Repr

/-- Client-level validation errors (`ValidateClient`). -/
inductive ClErr where
  | emptyClientName : ClErr
  | emptyConfigPath : ClErr
deriving Repr, DecidableEq

/-- Whole-registry validation errors (`ValidateConfig`), one constructor
per error site, carrying the interpolated data. -/
inductive CErr where
  | invalidPort (port : Int) : CErr
  | noServers : CErr
  | noClients : CErr
  | invalidServer (name : String) (e : VErr) : CErr
  | invalidClient (name : String) (e : ClErr) : CErr
  | danglingReference (client : String) (server : String) : CErr
deriving Repr, DecidableEq

/-- `ValidateClient`: the client name must be non-blank after trimming and
the config path non-empty. -/
def validateClient (clientName : String) (client : Client) : Except ClErr Unit :=
  if goTrimSpace clientName = "" then Except.error ClErr.emptyClientName
  else if client.configPath = "" then Except.error ClErr.emptyConfigPath
  else Except.ok ()

/-- `validateBasicConfig`: port in `[1, 65535]`, at least one server, at
least one client. -/
def validateBasicConfig (cfg : ConfigR) : Except CErr Unit :=
  if cfg.serverPort < 1 || 65535 < cfg.serverPort then
    Except.error (CErr.invalidPort cfg.serverPort)
  else if cfg.mcpServers.length = 0 then Except.error CErr.noServers
  else if cfg.clients.length = 0 then Except.error CErr.noClients
  else Except.ok ()

/-- `validateMCPServers`: first failing server wins, wrapped with its name. -/
def validateMCPServers (o : Oracles) : List MCPServer → Except CErr Unit
  | [] => Except.ok ()
  | s :: rest =>
    match validateMCPServerConfig o s.name s.config with
    | Except.error e => Except.error (CErr.invalidServer s.name e)
    | Except.ok _ => validateMCPServers o rest

/-- `buildServerNameSet`: the registry's server names (a Go `map[string]bool`
used purely as a set; modelled as the list of names). -/
def buildServerNameSet (servers : List MCPServer) : List String :=
  servers.map MCPServer.name

/-- `validateClientServerReferences`: the first enabled name that is not a
registry server name is a dangling reference, named with the client. -/
def validateClientServerReferences (clientName : String)
    (serverNames : List String) : List String → Except CErr Unit
  | [] => Except.ok ()
  | n :: rest =>
    if serverNames.contains n then
      validateClientServerReferences clientName serverNames rest
    else Except.error (CErr.danglingReference clientName n)

/-- `validateClients`: per-client validation then the reference check,
first failure wins. -/
def validateClients (serverNames : List String) : AMap Client → Except CErr Unit
  | [] => Except.ok ()
  | (name, client) :: rest =>
    match validateClient name client with
    | Except.error e => Except.error (CErr.invalidClient name e)
    | Except.ok _ =>
      match validateClientServerReferences name serverNames client.enabled with
      | Except.error e => Except.error e
      | Except.ok _ => validateClients serverNames rest

/-- `ValidateConfig` (whole-registry validation): basic checks, then every
server, then every client with its references. -/
def validateConfig (o : Oracles) (cfg : ConfigR) : Except CErr Unit :=
  match validateBasicConfig cfg with
  | Except.error e => Except.error e
  | Except.ok _ =>
    match validateMCPServers o cfg.mcpServers with
    | Except.error e => Except.error e
    | Except.ok _ => validateClients (buildServerNameSet cfg.mcpServers) cfg.clients

/-- The success conditions claim C5 lists for whole-registry validation:
port in range, at least one server and client, every server valid, every
client path non-empty, every enabled name resolvable.  (The claim does
not mention the client-name check the code also performs.) -/
def claimedRegistryConditions (o : Oracles) (cfg : ConfigR) : Prop :=
  1 ≤ cfg.serverPort ∧ cfg.serverPort ≤ 65535 ∧
  1 ≤ cfg.mcpServers.length ∧ 1 ≤ cfg.clients.length ∧
  (∀ s ∈ cfg.mcpServers,
    validateMCPServerConfig o s.name s.config = Except.ok ()) ∧
  (∀ c ∈ cfg.clients, c.2.configPath ≠ "") ∧
  (∀ c ∈ cfg.clients, ∀ n ∈ c.2.enabled, n ∈ buildServerNameSet cfg.mcpServers)

/-- The registry of the map-based generation (`models.Config` with
`MCPServers map[string]map[string]interface{}`), the shape used by
`client_config.go` and `mcp_manager.go`. -/
structure ConfigM where
  mcpServers : AMap (AMap JVal)
  clients : AMap Client
  serverPort : Int
deriving Repr

/-- Content of a file in the modelled filesystem: bytes that parse as a
JSON value, or bytes that do not parse. -/
inductive FileContent where
  | parses (j : JVal) : FileContent
  | invalid : FileContent
deriving Repr

/-- The filesystem: a map from path to file content; an absent key means
the file does not exist. -/
abbrev FileSys := AMap FileContent

/-- I/O and lookup errors of the client-config service, one constructor
per error site of `client_config.go`. -/
inductive IOErr where
  | clientNotFound (name : String) : IOErr
  | parseFailed (path : String) : IOErr
  | serverNotFound (name : String) : IOErr
  | backupFailed (path : String) : IOErr
  | writeFailed (path : String) : IOErr
deriving Repr, DecidableEq

/-- Result of a filesystem-mutating operation: success with the new
filesystem, or failure carrying the error together with the filesystem as
left behind by side effects performed before the failure. -/
inductive FsRes where
  | ok (fs : FileSys) : FsRes
  | fail (e : IOErr) (fs : FileSys) : FsRes
deriving Repr

/-- External write permissions and clock: whether a write to a path
succeeds, and the compact `20060102-150405`-format timestamp the backup
name embeds.  (`os.MkdirAll` is modelled as always succeeding.) -/
structure FsEnv where
  canWrite : String → Bool
  timestamp : String

/-- `config.ExpandPath`: a leading `~` (`path[0] == '~'`) is replaced by
the home directory (`filepath.Join(home, path[1:])`, modelled without
path cleaning). -/
def expandPath (home path : String) : String :=
  match path.toList with
  | '~' :: rest => home ++ String.mk rest
  | _ => path

/-- `ReadClientConfig` (`client_config.go`, raw-map generation): resolve
the client, read its file; a missing file yields the synthetic blob
`{mcpServers: {}}`; unparseable bytes or a non-object document fail; a
parsed object whose `mcpServers` key is absent or JSON `null` (the two
cases where Go's `rawConfig["mcpServers"] == nil` holds) gets that key
initialised to an empty object in the returned value only. -/
def readClientConfig (cfg : ConfigM) (home : String) (fs : FileSys)
    (clientName : String) : Except IOErr (AMap JVal) :=
  match alookup cfg.clients clientName with
  | none => Except.error (IOErr.clientNotFound clientName)
  | some client =>
    let configPath := expandPath home client.configPath
    match alookup fs configPath with
    | none => Except.ok [("mcpServers", JVal.jObj [])]
    | some FileContent.invalid => Except.error (IOErr.parseFailed configPath)
    | some (FileContent.parses j) =>
      match j with
      | JVal.jObj rawConfig =>
        match alookup rawConfig "mcpServers" with
        | none => Except.ok (aset rawConfig "mcpServers" (JVal.jObj []))
        | some JVal.jNull => Except.ok (aset rawConfig "mcpServers" (JVal.jObj []))
        | some _ => Except.ok rawConfig
      | _ => Except.error (IOErr.parseFailed configPath)

/-- `backupConfig` (`client_config.go`): nothing to do when no file exists
at the path; otherwise copy the current bytes unmodified to the sibling
`<path>.backup.<timestamp>`; a failing backup write reports an error with
no other effect. -/
def backupConfig (env : FsEnv) (fs : FileSys) (configPath : String) : FsRes :=
  match alookup fs configPath with
  | none => FsRes.ok fs
  | some content =>
    let backupPath := configPath ++ ".backup." ++ env.timestamp
    if env.canWrite backupPath then FsRes.ok (aset fs backupPath content)
    else FsRes.fail (IOErr.backupFailed backupPath) fs

/-- `WriteClientConfig` (`client_config.go`, raw-map generation): resolve
the client, back up the existing file, ensure the directory, then write
the serialized blob; a backup failure aborts before anything else. -/
def writeClientConfig (env : FsEnv) (cfg : ConfigM) (home : String)
    (fs : FileSys) (clientName : String) (rawConfig : AMap JVal) : FsRes :=
  match alookup cfg.clients clientName with
  | none => FsRes.fail (IOErr.clientNotFound clientName) fs
  | some client =>
    let configPath := expandPath home client.configPath
    match backupConfig env fs configPath with
    | FsRes.fail e fs1 => FsRes.fail e fs1
    | FsRes.ok fs1 =>
      if env.canWrite configPath then
        FsRes.ok (aset fs1 configPath (FileContent.parses (JVal.jObj rawConfig)))
      else FsRes.fail (IOErr.writeFailed configPath) fs1

/-- The copy loop of `UpdateMCPServerStatus`: a fresh map receives every
top-level key/value of the server config (pure-value view). -/
def copyServerConfig (serverConfig : AMap JVal) : AMap JVal :=
  serverConfig.foldl (fun acc kv => aset acc kv.1 kv.2) []

/-- `UpdateMCPServerStatus` (`client_config.go`, raw-map generation):
read the blob, take its `mcpServers` section if it is an object (else a
fresh empty one), then on enable copy the registry server's whole config
under the server's name (failing if the registry has no such server), on
disable delete the name, and write the blob back. -/
def updateMCPServerStatus (env : FsEnv) (cfg : ConfigM) (home : String)
    (fs : FileSys) (clientName serverName : String) (enabled : Bool) : FsRes :=
  match readClientConfig cfg home fs clientName with
  | Except.error e => FsRes.fail e fs
  | Except.ok rawConfig =>
    let mcpServers :=
      match alookup rawConfig "mcpServers" with
      | some (JVal.jObj ms) => ms
      | _ => []
    if enabled then
      match alookup cfg.mcpServers serverName with
      | none => FsRes.fail (IOErr.serverNotFound serverName) fs
      | some serverConfig =>
        writeClientConfig env cfg home fs clientName
          (aset rawConfig "mcpServers"
            (JVal.jObj (aset mcpServers serverName
              (JVal.jObj (copyServerConfig serverConfig)))))
    else
      writeClientConfig env cfg home fs clientName
        (aset rawConfig "mcpServers" (JVal.jObj (adel mcpServers serverName)))

/-- The `command` branch of the map-generation `ValidateMCPServerConfig`
(`validator.go`, map generation): a present non-blank string command is
immediately checked against the search path (before the exclusivity
count), and its presence is recorded. -/
def checkCommandA (o : Oracles) (config : AMap JVal) : Except VErr Bool :=
  match alookup config "command" with
  | some (JVal.jStr s) =>
    if goTrimSpace s = "" then Except.ok false
    else if o.pathHas s then Except.ok true
    else Except.error (VErr.commandNotFound s)
  | _ => Except.ok false

/-- The `url`/`httpUrl` branches of the map-generation
`ValidateMCPServerConfig`: a present non-blank string value is immediately
URL-validated, and its presence is recorded. -/
def checkURLFieldA (o : Oracles) (config : AMap JVal) (key : String) :
    Except VErr Bool :=
  match alookup config key with
  | some (JVal.jStr s) =>
    if goTrimSpace s = "" then Except.ok false
    else
      match validateURL o s with
      | Except.error e => Except.error e
      | Except.ok _ => Except.ok true
  | _ => Except.ok false

/-- `ValidateMCPServerConfig` (map generation): name check, the three
interleaved transport checks, the exclusivity count, then timeout and
env checks. -/
def validateMCPServerConfigA (o : Oracles) (serverName : String)
    (config : AMap JVal) : Except VErr Unit :=
  if goTrimSpace serverName = "" then Except.error VErr.emptyServerName
  else
    match checkCommandA o config with
    | Except.error e => Except.error e
    | Except.ok hasCommand =>
      match checkURLFieldA o config "url" with
      | Except.error e => Except.error e
      | Except.ok hasURL =>
        match checkURLFieldA o config "httpUrl" with
        | Except.error e => Except.error e
        | Except.ok hasHttpURL =>
          let transportCount := (if hasCommand then 1 else 0) +
            (if hasURL then 1 else 0) + (if hasHttpURL then 1 else 0)
          if transportCount = 0 then Except.error VErr.noTransportType
          else if 1 < transportCount then
            Except.error (VErr.multipleTransportTypes transportCount)
          else
            match validateTimeout config with
            | Except.error e => Except.error e
            | Except.ok _ => validateEnvironmentVariables config

/-- Per-server loop of the map-generation `ValidateConfig`. -/
def validateServersM (o : Oracles) : AMap (AMap JVal) → Except CErr Unit
  | [] => Except.ok ()
  | (name, sc) :: rest =>
    match validateMCPServerConfigA o name sc with
    | Except.error e => Except.error (CErr.invalidServer name e)
    | Except.ok _ => validateServersM o rest

/-- Enabled-reference loop of the map-generation `ValidateConfig`: each
enabled name must be a key of the servers map. -/
def checkClientRefsM (clientName : String) (servers : AMap (AMap JVal)) :
    List String → Except CErr Unit
  | [] => Except.ok ()
  | n :: rest =>
    if (alookup servers n).isSome then checkClientRefsM clientName servers rest
    else Except.error (CErr.danglingReference clientName n)

/-- Per-client loop of the map-generation `ValidateConfig`. -/
def validateClientsM (servers : AMap (AMap JVal)) : AMap Client → Except CErr Unit
  | [] => Except.ok ()
  | (name, client) :: rest =>
    match validateClient name client with
    | Except.error e => Except.error (CErr.invalidClient name e)
    | Except.ok _ =>
      match checkClientRefsM name servers client.enabled with
      | Except.error e => Except.error e
      | Except.ok _ => validateClientsM servers rest

/-- `ValidateConfig` (map generation): port range, non-empty collections,
every server, every client with its references. -/
def validateConfigM (o : Oracles) (cfg : ConfigM) : Except CErr Unit :=
  if cfg.serverPort < 1 || 65535 < cfg.serverPort then
    Except.error (CErr.invalidPort cfg.serverPort)
  else if cfg.mcpServers.length = 0 then Except.error CErr.noServers
  else if cfg.clients.length = 0 then Except.error CErr.noClients
  else
    match validateServersM o cfg.mcpServers with
    | Except.error e => Except.error e
    | Except.ok _ => validateClientsM cfg.mcpServers cfg.clients

/-- Failure of the manager's `saveConfig` step: whole-registry validation
failed, or the YAML write itself failed. -/
inductive SaveErr where
  | validationFailed (e : CErr) : SaveErr
  | persistFailed : SaveErr
deriving Repr, DecidableEq

/-- `saveConfig` (`mcp_manager.go`): re-validate the whole registry, then
persist it (`config.SaveConfig`, whose write success is the `saveOk`
parameter). -/
def saveConfigM (o : Oracles) (saveOk : Bool) (cfg : ConfigM) :
    Except SaveErr Unit :=
  match validateConfigM o cfg with
  | Except.error e => Except.error (SaveErr.validationFailed e)
  | Except.ok _ => if saveOk then Except.ok () else Except.error SaveErr.persistFailed

/-- Errors surfaced by the manager operations (`mcp_manager.go`). -/
inductive MgrErr where
  | validationFailed (e : VErr) : MgrErr
  | duplicateServerName (name : String) : MgrErr
  | saveFailed (e : SaveErr) : MgrErr
  | clientNotFound (name : String) : MgrErr
  | serverNotFound (name : String) : MgrErr
  | updateFailed (e : IOErr) : MgrErr
deriving Repr, DecidableEq

/-- Result of `AddServer`: the registry as left in memory, with the error
if any (the in-memory registry is not rolled back on a late failure). -/
inductive AddRes where
  | ok (cfg : ConfigM) : AddRes
  | fail (e : MgrErr) (cfg : ConfigM) : AddRes
deriving Repr

/-- `AddServer` (`mcp_manager.go`): validate the server config first, then
reject a duplicate name, then insert into the servers map and save the
whole registry (which re-validates it). -/
def addServer (o : Oracles) (saveOk : Bool) (cfg : ConfigM)
    (serverName : String) (serverConfig : AMap JVal) : AddRes :=
  match validateMCPServerConfigA o serverName serverConfig with
  | Except.error e => AddRes.fail (MgrErr.validationFailed e) cfg
  | Except.ok _ =>
    if (alookup cfg.mcpServers serverName).isSome then
      AddRes.fail (MgrErr.duplicateServerName serverName) cfg
    else
      let cfg' := { cfg with
        mcpServers := aset cfg.mcpServers serverName serverConfig }
      match saveConfigM o saveOk cfg' with
      | Except.error e => AddRes.fail (MgrErr.saveFailed e) cfg'
      | Except.ok _ => AddRes.ok cfg'

/-- The enabled-list mutation of `ToggleClientMCPServer`: enabling appends
the name only when not already present; disabling keeps exactly the
entries different from the name. -/
def toggleEnabledList (enabled : List String) (serverName : String)
    (enable : Bool) : List String :=
  if enable then
    if enabled.contains serverName then enabled else enabled ++ [serverName]
  else enabled.filter (fun n => n != serverName)

/-- Result of `ToggleClientMCPServer`: registry and filesystem as left by
the call, with the error if any. -/
inductive ToggleRes where
  | ok (cfg : ConfigM) (fs : FileSys) : ToggleRes
  | fail (e : MgrErr) (cfg : ConfigM) (fs : FileSys) : ToggleRes
deriving Repr

/-- The registry component of a toggle result. -/
def toggleResCfg : ToggleRes → ConfigM
  | ToggleRes.ok cfg _ => cfg
  | ToggleRes.fail _ cfg _ => cfg

/-- `ToggleClientMCPServer` (`mcp_manager.go`): resolve the client and the
server, mutate the client's enabled list in place, save the registry, then
project the change into the client's file.  The in-memory mutation is not
rolled back when saving or projecting fails. -/
def toggleClientMCPServer (o : Oracles) (saveOk : Bool) (env : FsEnv)
    (home : String) (cfg : ConfigM) (fs : FileSys)
    (clientName serverName : String) (enabled : Bool) : ToggleRes :=
  match alookup cfg.clients clientName with
  | none => ToggleRes.fail (MgrErr.clientNotFound clientName) cfg fs
  | some client =>
    if (alookup cfg.mcpServers serverName).isSome then
      let client' := { client with
        enabled := toggleEnabledList client.enabled serverName enabled }
      let cfg' := { cfg with clients := aset cfg.clients clientName client' }
      match saveConfigM o saveOk cfg' with
      | Except.error e => ToggleRes.fail (MgrErr.saveFailed e) cfg' fs
      | Except.ok _ =>
        match updateMCPServerStatus env cfg' home fs clientName serverName enabled with
        | FsRes.fail e fs' => ToggleRes.fail (MgrErr.updateFailed e) cfg' fs'
        | FsRes.ok fs' => ToggleRes.ok cfg' fs'
    else ToggleRes.fail (MgrErr.serverNotFound serverName) cfg fs

/-- Result of `SyncAllClients`: the filesystem as left by the run, and on
failure the name of the client whose sync failed (the error is wrapped
with that name) together with the underlying error. -/
inductive SyncRes where
  | ok (fs : FileSys) : SyncRes
  | fail (clientName : String) (e : IOErr) (fs : FileSys) : SyncRes
deriving Repr

/-- Inner loop of `SyncAllClients`: for one client, update every server of
the registry with enabled = membership in the client's enabled list,
stopping at the first failure. -/
def syncClientServers (env : FsEnv) (cfg : ConfigM) (home : String)
    (clientName : String) (enabledList : List String) :
    List String → FileSys → SyncRes
  | [], fs => SyncRes.ok fs
  | s :: rest, fs =>
    match updateMCPServerStatus env cfg home fs clientName s
        (enabledList.contains s) with
    | FsRes.fail e fs' => SyncRes.fail clientName e fs'
    | FsRes.ok fs' => syncClientServers env cfg home clientName enabledList rest fs'

/-- Outer loop of `SyncAllClients` over the remaining clients. -/
def syncAllClientsFrom (env : FsEnv) (cfg : ConfigM) (home : String) :
    AMap Client → FileSys → SyncRes
  | [], fs => SyncRes.ok fs
  | (clientName, client) :: rest, fs =>
    match syncClientServers env cfg home clientName client.enabled
        (cfg.mcpServers.map Prod.fst) fs with
    | SyncRes.fail c e fs' => SyncRes.fail c e fs'
    | SyncRes.ok fs' => syncAllClientsFrom env cfg home rest fs'

/-- `SyncAllClients` (`mcp_manager.go`): for every client, for every
server, update the client file; the first failing update aborts the whole
run with the error wrapped with that client's name. -/
def syncAllClients (env : FsEnv) (cfg : ConfigM) (home : String)
    (fs : FileSys) : SyncRes :=
  syncAllClientsFrom env cfg home cfg.clients fs

/-- A Go runtime value held in a `map[string]interface{}`: scalars are
immediate, nested maps are references into a heap of map objects (Go maps
are reference types). -/
inductive HVal where
  | hNull : HVal
  | hBool (b : Bool) : HVal
  | hInt (n : Int) : HVal
  | hNum (q : Rat) : HVal
  | hStr (s : String) : HVal
  | hRef (addr : Nat) : HVal
deriving Repr, DecidableEq

/-- The heap of live map objects, addressed by allocation index. -/
abbrev Heap := List (Nat × List (String × HVal))

/-- In-place mutation of one field of a heap map object
(`m[k] = v` on a shared map). -/
def heapSetField (h : Heap) (addr : Nat) (k : String) (v : HVal) : Heap :=
  match alookup h addr with
  | none => h
  | some obj => aset h addr (aset obj k v)

/-- The copy loop of `UpdateMCPServerStatus` (`client_config.go` lines
288-291) under reference semantics: allocate a fresh map and assign each
top-level key/value of the source object into it — values that are
references to nested maps are copied as references, so nested maps are
shared between source and copy. -/
def copyServerConfigHeap (h : Heap) (src : Nat) (fresh : Nat) : Heap :=
  match alookup h src with
  | none => h
  | some fields => aset h fresh (fields.foldl (fun acc kv => aset acc kv.1 kv.2) [])

/-- Read back a value as a pure JSON tree, dereferencing nested maps, with
a depth bound for termination on arbitrary heaps. -/
def resolveHV (h : Heap) : Nat → HVal → Option JVal
  | _, HVal.hNull => some JVal.jNull
  | _, HVal.hBool b => some (JVal.jBool b)
  | _, HVal.hInt n => some (JVal.jInt n)
  | _, HVal.hNum q => some (JVal.jNum q)
  | _, HVal.hStr s => some (JVal.jStr s)
  | 0, HVal.hRef _ => none
  | Nat.succ fuel, HVal.hRef addr =>
    match alookup h addr with
    | none => none
    | some fields =>
      Option.map JVal.jObj
        (fields.mapM (fun kv =>
          Option.map (fun j => (kv.1, j)) (resolveHV h fuel kv.2)))

/-! ## Supporting lemmas -/

theorem candidatePresent_eq_extract (config : AMap JVal) (key : String) :
    candidatePresent config key =
      decide (extractTransportValue config key ≠ "") := by
  unfold candidatePresent extractTransportValue
  cases alookup config key with
  | none => simp
  | some v => cases v <;> simp

theorem exists_str_of_extract_ne (config : AMap JVal) (key : String)
    (h : extractTransportValue config key ≠ "") :
    ∃ s, alookup config key = some (JVal.jStr s) ∧
      extractTransportValue config key = goTrimSpace s := by
  cases halk : alookup config key with
  | none => exact absurd (by simp [extractTransportValue, halk]) h
  | some v =>
    cases v with
    | jStr s => exact ⟨s, rfl, by simp [extractTransportValue, halk]⟩
    | jNull => exact absurd (by simp [extractTransportValue, halk]) h
    | jBool b => exact absurd (by simp [extractTransportValue, halk]) h
    | jInt n => exact absurd (by simp [extractTransportValue, halk]) h
    | jNum q => exact absurd (by simp [extractTransportValue, halk]) h
    | jArr elems => exact absurd (by simp [extractTransportValue, halk]) h
    | jObj fields => exact absurd (by simp [extractTransportValue, halk]) h

theorem alookup_aset_self {κ V : Type} [DecidableEq κ]
    (m : List (κ × V)) (k : κ) (v : V) : alookup (aset m k v) k = some v := by
  induction m with
  | nil => simp [aset, alookup]
  | cons p rest ih =>
    obtain ⟨k', v'⟩ := p
    by_cases h : k' = k
    · simp [aset, h, alookup]
    · simp [aset, h, alookup, ih]

theorem alookup_aset_ne {κ V : Type} [DecidableEq κ]
    (m : List (κ × V)) (k k' : κ) (v : V) (h : k' ≠ k) :
    alookup (aset m k v) k' = alookup m k' := by
  induction m with
  | nil => simp [aset, alookup, Ne.symm h]
  | cons p rest ih =>
    obtain ⟨k'', v''⟩ := p
    by_cases hk : k'' = k
    · subst hk
      simp [aset, alookup, Ne.symm h]
    · simp only [aset, hk, if_false, alookup]
      by_cases hk' : k'' = k'
      · simp [hk']
      · simp [hk', ih]

theorem aset_absent {κ V : Type} [DecidableEq κ]
    (m : List (κ × V)) (k : κ) (v : V) (h : alookup m k = none) :
    aset m k v = m ++ [(k, v)] := by
  induction m with
  | nil => simp [aset]
  | cons p rest ih =>
    obtain ⟨k', v'⟩ := p
    simp only [alookup] at h
    by_cases hk : k' = k
    · simp [hk] at h
    · simp only [hk, if_false] at h
      simp [aset, hk, ih h]

theorem backupPath_ne (p ts : String) : p ++ ".backup." ++ ts ≠ p := by
  intro h
  have hl := congrArg String.length h
  simp only [String.length_append] at hl
  have h8 : (".backup." : String).length = 8 := rfl
  omega

theorem validateMCPServers_ok_iff (o : Oracles) (ss : List MCPServer) :
    validateMCPServers o ss = Except.ok () ↔
      ∀ s ∈ ss, validateMCPServerConfig o s.name s.config = Except.ok () := by
  induction ss with
  | nil => simp [validateMCPServers]
  | cons s rest ih =>
    simp only [validateMCPServers]
    cases hv : validateMCPServerConfig o s.name s.config with
    | error e => simp [hv]
    | ok u => cases u; simp [hv, ih]

theorem validateRefs_ok_iff (c : String) (names : List String)
    (en : List String) :
    validateClientServerReferences c names en = Except.ok () ↔
      ∀ n ∈ en, n ∈ names := by
  induction en with
  | nil => simp [validateClientServerReferences]
  | cons n rest ih =>
    simp only [validateClientServerReferences]
    by_cases h : names.contains n
    · have hm : n ∈ names := by simpa [List.contains] using h
      simp [h, ih, hm]
    · have hm : n ∉ names := by simpa [List.contains] using h
      simp [h, hm]

theorem validateRefs_err (c : String) (names : List String)
    (en : List String) (e : CErr)
    (h : validateClientServerReferences c names en = Except.error e) :
    ∃ n, e = CErr.danglingReference c n ∧ n ∈ en ∧ n ∉ names := by
  induction en with
  | nil => simp [validateClientServerReferences] at h
  | cons n rest ih =>
    simp only [validateClientServerReferences] at h
    by_cases hc : names.contains n
    · rw [if_pos hc] at h
      obtain ⟨m, hm, hmem, hnm⟩ := ih h
      exact ⟨m, hm, List.mem_cons_of_mem _ hmem, hnm⟩
    · rw [if_neg hc] at h
      have hm : n ∉ names := by simpa [List.contains] using hc
      exact ⟨n, (Except.error.inj h).symm, List.mem_cons_self n rest, hm⟩

theorem validateClient_ok_iff (n : String) (c : Client) :
    validateClient n c = Except.ok () ↔
      goTrimSpace n ≠ "" ∧ c.configPath ≠ "" := by
  unfold validateClient
  by_cases h1 : goTrimSpace n = "" <;> by_cases h2 : c.configPath = "" <;>
    simp [h1, h2]

theorem validateClients_ok_iff (names : List String) (cs : AMap Client) :
    validateClients names cs = Except.ok () ↔
      ∀ p ∈ cs, validateClient p.1 p.2 = Except.ok () ∧
        ∀ n ∈ p.2.enabled, n ∈ names := by
  induction cs with
  | nil => simp [validateClients]
  | cons p rest ih =>
    obtain ⟨name, client⟩ := p
    simp only [validateClients]
    cases hv : validateClient name client with
    | error e => simp [hv]
    | ok u =>
      cases u
      cases hr : validateClientServerReferences name names client.enabled with
      | error e =>
        obtain ⟨n, _, hmem, hnm⟩ := validateRefs_err name names client.enabled e hr
        simp only [hr]
        constructor
        · intro hcon; cases hcon
        · intro hall
          exact absurd ((hall (name, client) (List.mem_cons_self _ _)).2 n hmem) hnm
      | ok u2 =>
        cases u2
        have hrefs := (validateRefs_ok_iff name names client.enabled).mp hr
        simp [hr, ih, hv, hrefs]
        exact fun _ => hrefs

theorem validateBasicConfig_ok_iff (cfg : ConfigR) :
    validateBasicConfig cfg = Except.ok () ↔
      1 ≤ cfg.serverPort ∧ cfg.serverPort ≤ 65535 ∧
        1 ≤ cfg.mcpServers.length ∧ 1 ≤ cfg.clients.length := by
  unfold validateBasicConfig
  by_cases h1 : cfg.serverPort < 1 || 65535 < cfg.serverPort
  · simp only [h1, if_true]
    simp only [Bool.or_eq_true, decide_eq_true_eq] at h1
    constructor
    · intro hcon; cases hcon
    · intro ⟨ha, hb, _, _⟩; omega
  · simp only [h1, if_false]
    simp only [Bool.or_eq_true, decide_eq_true_eq, not_or] at h1
    by_cases h2 : cfg.mcpServers.length = 0
    · simp only [h2, if_true]
      constructor
      · intro hcon; cases hcon
      · intro ⟨_, _, hc, _⟩; omega
    · simp only [h2, if_false]
      by_cases h3 : cfg.clients.length = 0
      · simp only [h3, if_true]
        constructor
        · intro hcon; cases hcon
        · intro ⟨_, _, _, hd⟩; omega
      · simp only [h3, if_false]
        constructor
        · intro _; omega
        · intro _; rfl

theorem validateClients_dangling (names : List String) (cs : AMap Client)
    (hall : ∀ p ∈ cs, validateClient p.1 p.2 = Except.ok ())
    (cx : String) (clx : Client) (nx : String)
    (hc : (cx, clx) ∈ cs) (hn : nx ∈ clx.enabled) (hnot : nx ∉ names) :
    ∃ c' n', validateClients names cs =
        Except.error (CErr.danglingReference c' n') ∧
      ∃ cl', (c', cl') ∈ cs ∧ n' ∈ cl'.enabled ∧ n' ∉ names := by
  induction cs with
  | nil => cases hc
  | cons p rest ih =>
    obtain ⟨name, client⟩ := p
    have hv : validateClient name client = Except.ok () :=
      hall _ (List.mem_cons_self _ _)
    cases hr : validateClientServerReferences name names client.enabled with
    | error e =>
      obtain ⟨n', he, hmem, hnm⟩ := validateRefs_err name names client.enabled e hr
      refine ⟨name, n', ?_, client, List.mem_cons_self _ _, hmem, hnm⟩
      simp only [validateClients, hv, hr, he]
    | ok u =>
      cases u
      rcases List.mem_cons.mp hc with heq | hmem
      · injection heq with h1 h2
        subst h1
        subst h2
        exact absurd ((validateRefs_ok_iff _ names _).mp hr nx hn) hnot
      · obtain ⟨c', n', hres, cl', hcl, hmm, hnm⟩ :=
          ih (fun q hq => hall q (List.mem_cons_of_mem _ hq)) hmem
        refine ⟨c', n', ?_, cl', List.mem_cons_of_mem _ hcl, hmm, hnm⟩
        simp only [validateClients, hv, hr, hres]

theorem writeClientConfig_ok_target (env : FsEnv) (cfg : ConfigM)
    (home : String) (fs : FileSys) (clientName : String) (client : Client)
    (raw : AMap JVal) (fs' : FileSys)
    (hcl : alookup cfg.clients clientName = some client)
    (hw : writeClientConfig env cfg home fs clientName raw = FsRes.ok fs') :
    alookup fs' (expandPath home client.configPath) =
      some (FileContent.parses (JVal.jObj raw)) := by
  unfold writeClientConfig at hw
  simp only [hcl] at hw
  cases hbk : backupConfig env fs (expandPath home client.configPath) with
  | fail e fs1 =>
    simp only [hbk] at hw
    cases hw
  | ok fs1 =>
    simp only [hbk] at hw
    split at hw
    · cases hw
      exact alookup_aset_self _ _ _
    · cases hw

theorem updateMCPServerStatus_ok_shape (env : FsEnv) (cfg : ConfigM)
    (home : String) (fs : FileSys) (clientName serverName : String)
    (enabled : Bool) (fs' : FileSys)
    (h : updateMCPServerStatus env cfg home fs clientName serverName enabled =
      FsRes.ok fs') :
    ∃ raw ms, readClientConfig cfg home fs clientName = Except.ok raw ∧
      writeClientConfig env cfg home fs clientName
        (aset raw "mcpServers" (JVal.jObj ms)) = FsRes.ok fs' := by
  unfold updateMCPServerStatus at h
  cases hr : readClientConfig cfg home fs clientName with
  | error e =>
    simp only [hr] at h
    cases h
  | ok raw =>
    simp only [hr] at h
    cases enabled with
    | false =>
      simp only [Bool.false_eq_true, if_false] at h
      exact ⟨raw, _, rfl, h⟩
    | true =>
      simp only [if_true] at h
      cases hs : alookup cfg.mcpServers serverName with
      | none =>
        simp only [hs] at h
        cases h
      | some sc =>
        simp only [hs] at h
        exact ⟨raw, _, rfl, h⟩

theorem readClientConfig_foreign (cfg : ConfigM) (home : String)
    (fs : FileSys) (clientName : String) (client : Client)
    (fields raw : AMap JVal)
    (hcl : alookup cfg.clients clientName = some client)
    (hfs : alookup fs (expandPath home client.configPath) =
      some (FileContent.parses (JVal.jObj fields)))
    (hr : readClientConfig cfg home fs clientName = Except.ok raw) :
    ∀ k, k ≠ "mcpServers" → alookup raw k = alookup fields k := by
  unfold readClientConfig at hr
  simp only [hcl, hfs] at hr
  intro k hk
  cases hm : alookup fields "mcpServers" with
  | none =>
    simp only [hm] at hr
    cases hr
    exact alookup_aset_ne _ _ _ _ hk
  | some v =>
    simp only [hm] at hr
    cases v <;> cases hr <;>
      first
      | exact alookup_aset_ne _ _ _ _ hk
      | rfl

/-! ## Theorems for the claims -/

/-- C1: transport detection inspects `command`, `url`, `httpUrl` in that
fixed order, a candidate counting as present only when its value is a
string non-empty after trimming; zero present candidates fail with the
no-transport error, two or three fail with an error reporting the exact
count, and exactly one present candidate succeeds, returning which field
it was and its trimmed value. -/
theorem claimC1_detectTransportType (config : AMap JVal) :
    (presentCount config = 0 →
      detectTransportType config = Except.error VErr.noTransportType) ∧
    (2 ≤ presentCount config →
      detectTransportType config =
        Except.error (VErr.multipleTransportTypes (presentCount config))) ∧
    (presentCount config = 1 →
      ∃ key t s, (key, t) ∈ transportCandidates ∧
        alookup config key = some (JVal.jStr s) ∧ goTrimSpace s ≠ "" ∧
        detectTransportType config = Except.ok (t, goTrimSpace s)) := by
  have hpc := candidatePresent_eq_extract config
  by_cases h1 : extractTransportValue config "command" = ""
  · by_cases h2 : extractTransportValue config "url" = ""
    · by_cases h3 : extractTransportValue config "httpUrl" = ""
      · -- none present
        refine ⟨fun _ => ?_, fun hc => ?_, fun hc => ?_⟩
        · simp [detectTransportType, transportCandidates, h1, h2, h3]
        · simp [presentCount, transportCandidates, hpc, h1, h2, h3] at hc
        · simp [presentCount, transportCandidates, hpc, h1, h2, h3] at hc
      · -- only httpUrl present
        refine ⟨fun hc => ?_, fun hc => ?_, fun _ => ?_⟩
        · simp [presentCount, transportCandidates, hpc, h1, h2, h3] at hc
        · simp [presentCount, transportCandidates, hpc, h1, h2, h3] at hc
        · obtain ⟨s, hs, hv⟩ := exists_str_of_extract_ne config "httpUrl" h3
          refine ⟨"httpUrl", TransportType.transportHTTP, s,
            by simp [transportCandidates], hs, ?_, ?_⟩
          · rw [← hv]; exact h3
          · rw [← hv]; simp [detectTransportType, transportCandidates, h1, h2, h3]
    · by_cases h3 : extractTransportValue config "httpUrl" = ""
      · -- only url present
        refine ⟨fun hc => ?_, fun hc => ?_, fun _ => ?_⟩
        · simp [presentCount, transportCandidates, hpc, h1, h2, h3] at hc
        · simp [presentCount, transportCandidates, hpc, h1, h2, h3] at hc
        · obtain ⟨s, hs, hv⟩ := exists_str_of_extract_ne config "url" h2
          refine ⟨"url", TransportType.transportURL, s,
            by simp [transportCandidates], hs, ?_, ?_⟩
          · rw [← hv]; exact h2
          · rw [← hv]; simp [detectTransportType, transportCandidates, h1, h2, h3]
      · -- url and httpUrl present
        refine ⟨fun hc => ?_, fun _ => ?_, fun hc => ?_⟩
        · simp [presentCount, transportCandidates, hpc, h1, h2, h3] at hc
        · have hcnt : presentCount config = 2 := by
            simp [presentCount, transportCandidates, hpc, h1, h2, h3]
          rw [hcnt]
          simp [detectTransportType, transportCandidates, h1, h2, h3]
        · simp [presentCount, transportCandidates, hpc, h1, h2, h3] at hc
  · by_cases h2 : extractTransportValue config "url" = ""
    · by_cases h3 : extractTransportValue config "httpUrl" = ""
      · -- only command present
        refine ⟨fun hc => ?_, fun hc => ?_, fun _ => ?_⟩
        · simp [presentCount, transportCandidates, hpc, h1, h2, h3] at hc
        · simp [presentCount, transportCandidates, hpc, h1, h2, h3] at hc
        · obtain ⟨s, hs, hv⟩ := exists_str_of_extract_ne config "command" h1
          refine ⟨"command", TransportType.transportCommand, s,
            by simp [transportCandidates], hs, ?_, ?_⟩
          · rw [← hv]; exact h1
          · rw [← hv]; simp [detectTransportType, transportCandidates, h1, h2, h3]
      · -- command and httpUrl present
        refine ⟨fun hc => ?_, fun _ => ?_, fun hc => ?_⟩
        · simp [presentCount, transportCandidates, hpc, h1, h2, h3] at hc
        · have hcnt : presentCount config = 2 := by
            simp [presentCount, transportCandidates, hpc, h1, h2, h3]
          rw [hcnt]
          simp [detectTransportType, transportCandidates, h1, h2, h3]
        · simp [presentCount, transportCandidates, hpc, h1, h2, h3] at hc
    · by_cases h3 : extractTransportValue config "httpUrl" = ""
      · -- command and url present
        refine ⟨fun hc => ?_, fun _ => ?_, fun hc => ?_⟩
        · simp [presentCount, transportCandidates, hpc, h1, h2, h3] at hc
        · have hcnt : presentCount config = 2 := by
            simp [presentCount, transportCandidates, hpc, h1, h2, h3]
          rw [hcnt]
          simp [detectTransportType, transportCandidates, h1, h2, h3]
        · simp [presentCount, transportCandidates, hpc, h1, h2, h3] at hc
      · -- all three present
        refine ⟨fun hc => ?_, fun _ => ?_, fun hc => ?_⟩
        · simp [presentCount, transportCandidates, hpc, h1, h2, h3] at hc
        · have hcnt : presentCount config = 3 := by
            simp [presentCount, transportCandidates, hpc, h1, h2, h3]
          rw [hcnt]
          simp [detectTransportType, transportCandidates, h1, h2, h3]
        · simp [presentCount, transportCandidates, hpc, h1, h2, h3] at hc

/-- Witness for C1 at a concrete config: a single `command` candidate with
surrounding whitespace is detected, returning the trimmed value. -/
theorem claimC1_witness :
    presentCount [("command", JVal.jStr " echo ")] = 1 ∧
      ∃ key t s, (key, t) ∈ transportCandidates ∧
        alookup [("command", JVal.jStr " echo ")] key = some (JVal.jStr s) ∧
        goTrimSpace s ≠ "" ∧
        detectTransportType [("command", JVal.jStr " echo ")] =
          Except.ok (t, goTrimSpace s) :=
  ⟨by decide, (claimC1_detectTransportType [("command", JVal.jStr " echo ")]).2.2 (by decide)⟩

/-- C5 counterexample: a registry meeting every condition the claim lists
(port in range, one valid server, one client with a non-empty path and no
dangling references) is still rejected, because the code additionally
requires each client's name to be non-blank — here the client's name is
whitespace only. -/
theorem claimC5_counterexample :
    claimedRegistryConditions ⟨fun _ => true, fun _ => none⟩
        ⟨[⟨"s1", [("command", JVal.jStr "echo")]⟩], [("  ", ⟨"/p", []⟩)], 8080⟩ ∧
      validateConfig ⟨fun _ => true, fun _ => none⟩
        ⟨[⟨"s1", [("command", JVal.jStr "echo")]⟩], [("  ", ⟨"/p", []⟩)], 8080⟩ ≠
        Except.ok () := by
  constructor
  · exact ⟨by decide, by decide, by decide, by decide, by decide, by decide, by decide⟩
  · decide

/-- C5 amended: whole-registry validation succeeds iff the claim's listed
conditions hold and additionally every client's name is non-blank after
trimming (a check the code performs that the claim omits); and when the
basic, server and per-client checks pass but some client's enabled list
names a missing server, validation fails with a dangling-reference error
naming a client together with one of its enabled names that is missing
from the registry. -/
theorem claimC5_validateConfig (o : Oracles) (cfg : ConfigR) :
    (validateConfig o cfg = Except.ok () ↔
      (claimedRegistryConditions o cfg ∧
        ∀ c ∈ cfg.clients, goTrimSpace c.1 ≠ "")) ∧
    (validateBasicConfig cfg = Except.ok () →
      validateMCPServers o cfg.mcpServers = Except.ok () →
      (∀ c ∈ cfg.clients, validateClient c.1 c.2 = Except.ok ()) →
      ∀ cx clx nx, (cx, clx) ∈ cfg.clients → nx ∈ clx.enabled →
        nx ∉ buildServerNameSet cfg.mcpServers →
        ∃ c' n', validateConfig o cfg =
            Except.error (CErr.danglingReference c' n') ∧
          ∃ cl', (c', cl') ∈ cfg.clients ∧ n' ∈ cl'.enabled ∧
            n' ∉ buildServerNameSet cfg.mcpServers) := by
  constructor
  · unfold validateConfig
    cases hb : validateBasicConfig cfg with
    | error e =>
      constructor
      · intro h; cases h
      · rintro ⟨⟨hp1, hp2, hsl, hcl, _, _, _⟩, _⟩
        have hok := (validateBasicConfig_ok_iff cfg).mpr ⟨hp1, hp2, hsl, hcl⟩
        rw [hb] at hok; cases hok
    | ok u =>
      cases u
      have hbasic := (validateBasicConfig_ok_iff cfg).mp hb
      cases hs : validateMCPServers o cfg.mcpServers with
      | error e =>
        constructor
        · intro h; cases h
        · rintro ⟨⟨_, _, _, _, hsv, _, _⟩, _⟩
          have hok := (validateMCPServers_ok_iff o cfg.mcpServers).mpr hsv
          rw [hs] at hok; cases hok
      | ok u2 =>
        cases u2
        have hserv := (validateMCPServers_ok_iff o cfg.mcpServers).mp hs
        rw [validateClients_ok_iff]
        constructor
        · intro hall
          refine ⟨⟨hbasic.1, hbasic.2.1, hbasic.2.2.1, hbasic.2.2.2,
            hserv, ?_, ?_⟩, ?_⟩
          · intro c hc
            exact ((validateClient_ok_iff c.1 c.2).mp (hall c hc).1).2
          · intro c hc n hn
            exact (hall c hc).2 n hn
          · intro c hc
            exact ((validateClient_ok_iff c.1 c.2).mp (hall c hc).1).1
        · rintro ⟨⟨_, _, _, _, _, hpaths, hrefs⟩, hnames⟩
          intro p hp
          exact ⟨(validateClient_ok_iff p.1 p.2).mpr
            ⟨hnames p hp, hpaths p hp⟩, hrefs p hp⟩
  · intro hb hs hcl cx clx nx hcx hnx hnot
    obtain ⟨c', n', hres, hw⟩ := validateClients_dangling
      (buildServerNameSet cfg.mcpServers) cfg.clients hcl cx clx nx hcx hnx hnot
    refine ⟨c', n', ?_, hw⟩
    unfold validateConfig
    rw [hb, hs]
    exact hres

/-- Witness for C5's amended theorem at a concrete registry whose single
client enables the non-existent server name `ghost`: validation fails with
a dangling-reference error naming the client and the missing server. -/
theorem claimC5_witness :
    ∃ c' n', validateConfig ⟨fun _ => true, fun _ => none⟩
        ⟨[⟨"s1", [("command", JVal.jStr "echo")]⟩],
         [("c1", ⟨"/p", ["ghost"]⟩)], 8080⟩ =
        Except.error (CErr.danglingReference c' n') ∧
      ∃ cl', (c', cl') ∈ [("c1", (⟨"/p", ["ghost"]⟩ : Client))] ∧
        n' ∈ cl'.enabled ∧
        n' ∉ buildServerNameSet [⟨"s1", [("command", JVal.jStr "echo")]⟩] :=
  (claimC5_validateConfig ⟨fun _ => true, fun _ => none⟩
      ⟨[⟨"s1", [("command", JVal.jStr "echo")]⟩],
       [("c1", ⟨"/p", ["ghost"]⟩)], 8080⟩).2
    (by decide) (by decide) (by decide)
    "c1" ⟨"/p", ["ghost"]⟩ "ghost" (by decide) (by decide) (by decide)

/-- C9 counterexample: a config whose `timeout` is the negative number
`-5` as a `float64` (the dynamic type JSON decoding produces) passes the
whole server validation, because the code's type assertion `.(int)` only
catches Go `int` values; so a present negative numeric timeout does not
always fail. -/
theorem claimC9_counterexample :
    alookup [("command", JVal.jStr "echo"), ("timeout", JVal.jNum (-5))]
        "timeout" = some (JVal.jNum (-5)) ∧
      validateMCPServerConfig ⟨fun _ => true, fun _ => none⟩ "x"
        [("command", JVal.jStr "echo"), ("timeout", JVal.jNum (-5))] =
        Except.ok () :=
  ⟨rfl, rfl⟩

/-- C9 amended: the timeout check fails (with the negative-timeout error)
exactly when the `timeout` value is a Go `int` that is negative; any
config whose `timeout`, when it is an `int`, is non-negative passes the
timeout check — in particular zero and positive values, but also negative
`float64` values, which the `.(int)` type assertion does not catch. -/
theorem claimC9_validateTimeout (config : AMap JVal) :
    (validateTimeout config = Except.error VErr.negativeTimeout ↔
      ∃ n : Int, alookup config "timeout" = some (JVal.jInt n) ∧ n < 0) ∧
    ((∀ n : Int, alookup config "timeout" = some (JVal.jInt n) → 0 ≤ n) →
      validateTimeout config = Except.ok ()) := by
  cases halk : alookup config "timeout" with
  | none =>
    refine ⟨⟨fun h => ?_, fun h => ?_⟩, fun _ => ?_⟩
    · simp [validateTimeout, halk] at h
    · obtain ⟨m, hm, _⟩ := h
      cases hm
    · simp [validateTimeout, halk]
  | some v =>
    cases v
    case jInt n =>
      refine ⟨⟨fun h => ?_, fun h => ?_⟩, fun hnn => ?_⟩
      · refine ⟨n, rfl, ?_⟩
        by_contra hge
        simp [validateTimeout, halk, hge] at h
      · obtain ⟨m, hm, hmneg⟩ := h
        cases hm
        simp [validateTimeout, halk, hmneg]
      · have h0 := hnn n rfl
        have hng : ¬n < 0 := by omega
        simp [validateTimeout, halk, hng]
    all_goals refine ⟨⟨fun h => ?_, fun h => ?_⟩, fun _ => ?_⟩
    all_goals try simp [validateTimeout, halk] at h
    all_goals simp [validateTimeout, halk]

/-- Witness for C9's amended theorem: a `float64` timeout of `-5` passes
the timeout check, since it is not a Go `int`. -/
theorem claimC9_witness :
    validateTimeout [("timeout", JVal.jNum (-5))] = Except.ok () :=
  (claimC9_validateTimeout [("timeout", JVal.jNum (-5))]).2
    (fun n hn => by simp [alookup] at hn)

/-- C2: enabling copies only the top level of the server's config map;
nested maps are shared by reference.  At a server config whose `env` is a
nested map (heap address 1), mutating the registry's nested map after the
copy changes what the stored blob entry (address 2) reads back — the
"deep, independent copy" the claim (and the code's own comment) promises
does not hold for nested values. -/
theorem claimC2_nestedSharing :
    resolveHV (copyServerConfigHeap
        [(0, [("command", HVal.hStr "echo"), ("env", HVal.hRef 1)]),
         (1, [("NODE_ENV", HVal.hStr "production")])] 0 2) 3 (HVal.hRef 2) =
      some (JVal.jObj [("command", JVal.jStr "echo"),
        ("env", JVal.jObj [("NODE_ENV", JVal.jStr "production")])]) ∧
    resolveHV (heapSetField (copyServerConfigHeap
        [(0, [("command", HVal.hStr "echo"), ("env", HVal.hRef 1)]),
         (1, [("NODE_ENV", HVal.hStr "production")])] 0 2)
        1 "NODE_ENV" (HVal.hStr "dev")) 3 (HVal.hRef 2) =
      some (JVal.jObj [("command", JVal.jStr "echo"),
        ("env", JVal.jObj [("NODE_ENV", JVal.jStr "dev")])]) ∧
    some (JVal.jObj [("command", JVal.jStr "echo"),
        ("env", JVal.jObj [("NODE_ENV", JVal.jStr "production")])]) ≠
      some (JVal.jObj [("command", JVal.jStr "echo"),
        ("env", JVal.jObj [("NODE_ENV", JVal.jStr "dev")])]) :=
  ⟨rfl, rfl, by simp⟩

/-- C3: for a client whose existing file parses as a JSON object, any
successful `updateServerStatus` preserves every top-level key other than
`mcpServers`: re-reading the client's file yields the same foreign
key/value pairs as before the call. -/
theorem claimC3_updateServerStatus (env : FsEnv) (cfg : ConfigM)
    (home : String) (fs : FileSys) (clientName serverName : String)
    (enabled : Bool) (client : Client) (fields : AMap JVal) (fs' : FileSys)
    (hcl : alookup cfg.clients clientName = some client)
    (hfs : alookup fs (expandPath home client.configPath) =
      some (FileContent.parses (JVal.jObj fields)))
    (hupd : updateMCPServerStatus env cfg home fs clientName serverName
      enabled = FsRes.ok fs') :
    ∃ raw', readClientConfig cfg home fs' clientName = Except.ok raw' ∧
      ∀ k, k ≠ "mcpServers" → alookup raw' k = alookup fields k := by
  obtain ⟨raw, ms, hr, hw⟩ := updateMCPServerStatus_ok_shape env cfg home fs
    clientName serverName enabled fs' hupd
  have htgt := writeClientConfig_ok_target env cfg home fs clientName client
    (aset raw "mcpServers" (JVal.jObj ms)) fs' hcl hw
  refine ⟨aset raw "mcpServers" (JVal.jObj ms), ?_, ?_⟩
  · have hm : alookup (aset raw "mcpServers" (JVal.jObj ms)) "mcpServers" =
      some (JVal.jObj ms) := alookup_aset_self _ _ _
    simp [readClientConfig, hcl, htgt, hm]
  · intro k hk
    rw [alookup_aset_ne _ _ _ _ hk]
    exact readClientConfig_foreign cfg home fs clientName client fields raw
      hcl hfs hr k hk

/-- Witness for C3 at a concrete scenario: enabling server `s1` for client
`c1`, whose file also holds `theme` and `apiKey`, leaves both foreign keys
readable unchanged afterwards. -/
theorem claimC3_witness :
    ∃ raw', readClientConfig
        ⟨[("s1", [("command", JVal.jStr "echo"),
           ("args", JVal.jArr [JVal.jStr "hi"])])],
         [("c1", ⟨"/cfg.json", []⟩)], 8080⟩ "/home/u"
        [("/cfg.json", FileContent.parses (JVal.jObj
           [("mcpServers", JVal.jObj
              [("s1", JVal.jObj [("command", JVal.jStr "echo"),
                 ("args", JVal.jArr [JVal.jStr "hi"])])]),
            ("theme", JVal.jStr "dark"), ("apiKey", JVal.jStr "secret")])),
         ("/cfg.json.backup.TS", FileContent.parses (JVal.jObj
           [("mcpServers", JVal.jObj []), ("theme", JVal.jStr "dark"),
            ("apiKey", JVal.jStr "secret")]))] "c1" = Except.ok raw' ∧
      ∀ k, k ≠ "mcpServers" →
        alookup raw' k = alookup
          [("mcpServers", JVal.jObj []), ("theme", JVal.jStr "dark"),
           ("apiKey", JVal.jStr "secret")] k :=
  claimC3_updateServerStatus ⟨fun _ => true, "TS"⟩
    ⟨[("s1", [("command", JVal.jStr "echo"),
       ("args", JVal.jArr [JVal.jStr "hi"])])],
     [("c1", ⟨"/cfg.json", []⟩)], 8080⟩ "/home/u"
    [("/cfg.json", FileContent.parses (JVal.jObj
       [("mcpServers", JVal.jObj []), ("theme", JVal.jStr "dark"),
        ("apiKey", JVal.jStr "secret")]))]
    "c1" "s1" true ⟨"/cfg.json", []⟩
    [("mcpServers", JVal.jObj []), ("theme", JVal.jStr "dark"),
     ("apiKey", JVal.jStr "secret")] _ (by rfl) (by rfl) (by rfl)

/-- C4: when a file exists at the client's expanded path, its current
content is copied unmodified to the sibling `<path>.backup.<timestamp>`
before the new blob is written (the backup survives the overwrite and
holds the pre-write content); and if the backup write fails, the whole
write aborts with an error leaving the filesystem — in particular the
target file — completely unchanged. -/
theorem claimC4_writeClientConfig (env : FsEnv) (cfg : ConfigM)
    (home : String) (fs : FileSys) (clientName : String) (client : Client)
    (raw : AMap JVal) (content : FileContent) (path : String)
    (hcl : alookup cfg.clients clientName = some client)
    (hpath : expandPath home client.configPath = path)
    (hex : alookup fs path = some content) :
    (env.canWrite (path ++ ".backup." ++ env.timestamp) = false →
      writeClientConfig env cfg home fs clientName raw =
        FsRes.fail (IOErr.backupFailed (path ++ ".backup." ++ env.timestamp)) fs) ∧
    (env.canWrite (path ++ ".backup." ++ env.timestamp) = true →
      env.canWrite path = true →
      writeClientConfig env cfg home fs clientName raw =
        FsRes.ok (aset (aset fs (path ++ ".backup." ++ env.timestamp) content)
          path (FileContent.parses (JVal.jObj raw))) ∧
      alookup (aset (aset fs (path ++ ".backup." ++ env.timestamp) content)
          path (FileContent.parses (JVal.jObj raw)))
          (path ++ ".backup." ++ env.timestamp) = some content) ∧
    (env.canWrite (path ++ ".backup." ++ env.timestamp) = true →
      env.canWrite path = false →
      writeClientConfig env cfg home fs clientName raw =
        FsRes.fail (IOErr.writeFailed path)
          (aset fs (path ++ ".backup." ++ env.timestamp) content)) := by
  subst hpath
  refine ⟨fun hbw => ?_, fun hbw hcw => ⟨?_, ?_⟩, fun hbw hcw => ?_⟩
  · simp [writeClientConfig, backupConfig, hcl, hex, hbw]
  · simp [writeClientConfig, backupConfig, hcl, hex, hbw, hcw]
  · rw [alookup_aset_ne _ _ _ _ (backupPath_ne _ _)]
    exact alookup_aset_self _ _ _
  · simp [writeClientConfig, backupConfig, hcl, hex, hbw, hcw]

/-- Witness for C4 at a concrete scenario where both writes are permitted:
the overwrite produces the backup sibling holding the pre-write content. -/
theorem claimC4_witness :
    writeClientConfig ⟨fun _ => true, "TS"⟩ ⟨[], [("c1", ⟨"/cfg.json", []⟩)], 8080⟩
        "/home/u" [("/cfg.json", FileContent.parses (JVal.jObj []))] "c1"
        [("newKey", JVal.jStr "v")] =
      FsRes.ok (aset (aset [("/cfg.json", FileContent.parses (JVal.jObj []))]
        ("/cfg.json" ++ ".backup." ++ "TS") (FileContent.parses (JVal.jObj [])))
        "/cfg.json" (FileContent.parses (JVal.jObj [("newKey", JVal.jStr "v")]))) ∧
    alookup (aset (aset [("/cfg.json", FileContent.parses (JVal.jObj []))]
        ("/cfg.json" ++ ".backup." ++ "TS") (FileContent.parses (JVal.jObj [])))
        "/cfg.json" (FileContent.parses (JVal.jObj [("newKey", JVal.jStr "v")])))
        ("/cfg.json" ++ ".backup." ++ "TS") =
      some (FileContent.parses (JVal.jObj [])) :=
  (claimC4_writeClientConfig ⟨fun _ => true, "TS"⟩
      ⟨[], [("c1", ⟨"/cfg.json", []⟩)], 8080⟩ "/home/u"
      [("/cfg.json", FileContent.parses (JVal.jObj []))] "c1"
      ⟨"/cfg.json", []⟩ [("newKey", JVal.jStr "v")]
      (FileContent.parses (JVal.jObj [])) "/cfg.json"
      (by rfl) (by rfl) (by rfl)).2.1 rfl rfl

/-- C6 counterexample: a file whose `mcpServers` key holds a non-object,
non-null value (here the string `"oops"`) is returned as-is by the read —
the key is not initialised to an empty mapping as the claim states for
non-object values. -/
theorem claimC6_counterexample :
    readClientConfig ⟨[], [("c1", ⟨"/cfg.json", []⟩)], 8080⟩ "/home/u"
        [("/cfg.json", FileContent.parses
           (JVal.jObj [("mcpServers", JVal.jStr "oops")]))] "c1" =
      Except.ok [("mcpServers", JVal.jStr "oops")] ∧
    JVal.jStr "oops" ≠ JVal.jObj [] :=
  ⟨rfl, by simp⟩

/-- C6 amended: a missing file yields the synthetic `{mcpServers: {}}`
blob without error; an unparseable file fails; a parsed object whose
`mcpServers` key is absent or JSON null gets the key initialised to an
empty mapping in the returned value only; any other present value
(including non-object values) is returned unchanged. -/
theorem claimC6_readClientConfig (cfg : ConfigM) (home : String)
    (fs : FileSys) (clientName : String) (client : Client)
    (hcl : alookup cfg.clients clientName = some client) :
    (alookup fs (expandPath home client.configPath) = none →
      readClientConfig cfg home fs clientName =
        Except.ok [("mcpServers", JVal.jObj [])]) ∧
    (alookup fs (expandPath home client.configPath) =
        some FileContent.invalid →
      readClientConfig cfg home fs clientName =
        Except.error (IOErr.parseFailed (expandPath home client.configPath))) ∧
    (∀ fields, alookup fs (expandPath home client.configPath) =
        some (FileContent.parses (JVal.jObj fields)) →
      ((alookup fields "mcpServers" = none ∨
          alookup fields "mcpServers" = some JVal.jNull) →
        readClientConfig cfg home fs clientName =
          Except.ok (aset fields "mcpServers" (JVal.jObj []))) ∧
      (∀ v, alookup fields "mcpServers" = some v → v ≠ JVal.jNull →
        readClientConfig cfg home fs clientName = Except.ok fields)) := by
  refine ⟨fun hf => ?_, fun hf => ?_,
    fun fields hf => ⟨fun hm => ?_, fun v hv hnv => ?_⟩⟩
  · simp [readClientConfig, hcl, hf]
  · simp [readClientConfig, hcl, hf]
  · rcases hm with hm | hm <;> simp [readClientConfig, hcl, hf, hm]
  · cases v <;> simp [readClientConfig, hcl, hf, hv]
    exact absurd rfl hnv

/-- Witness for C6's amended theorem: with no file on disk, reading
yields the synthetic empty blob without error. -/
theorem claimC6_witness :
    readClientConfig ⟨[], [("c1", ⟨"/cfg.json", []⟩)], 8080⟩ "/home/u" [] "c1" =
      Except.ok [("mcpServers", JVal.jObj [])] :=
  (claimC6_readClientConfig ⟨[], [("c1", ⟨"/cfg.json", []⟩)], 8080⟩ "/home/u"
    [] "c1" ⟨"/cfg.json", []⟩ rfl).1 rfl

theorem count_toggle_enable (en : List String) (s : String) :
    (toggleEnabledList en s true).count s =
      if en.count s = 0 then 1 else en.count s := by
  unfold toggleEnabledList
  by_cases hm : s ∈ en
  · have hz : en.count s ≠ 0 := by
      intro hcz
      exact List.count_eq_zero.mp hcz hm
    simp [List.contains, hm, hz]
  · have hz : en.count s = 0 := List.count_eq_zero.mpr hm
    simp [List.contains, hm, hz, List.count_append]

theorem count_toggle_disable (en : List String) (s : String) :
    (toggleEnabledList en s false).count s = 0 := by
  unfold toggleEnabledList
  simp only [Bool.false_eq_true, if_false]
  rw [List.count_eq_zero]
  intro hmem
  have := List.of_mem_filter hmem
  simp at this

theorem count_iterate_enable (en : List String) (s : String)
    (hc : en.count s ≤ 1) :
    ∀ n, 1 ≤ n →
      ((fun l => toggleEnabledList l s true)^[n] en).count s = 1 := by
  intro n hn
  induction n with
  | zero => omega
  | succ m ih =>
    rw [Function.iterate_succ_apply']
    cases Nat.eq_zero_or_pos m with
    | inl hm =>
      subst hm
      simp only [Function.iterate_zero_apply]
      rw [count_toggle_enable]
      split
      · rfl
      · omega
    | inr hm =>
      have hprev := ih hm
      rw [count_toggle_enable, hprev]
      simp

theorem toggle_result_clients (o : Oracles) (saveOk : Bool) (env : FsEnv)
    (home : String) (cfg : ConfigM) (fs : FileSys)
    (clientName serverName : String) (client : Client) (enable : Bool)
    (hc : alookup cfg.clients clientName = some client)
    (hs : (alookup cfg.mcpServers serverName).isSome = true) :
    alookup (toggleResCfg (toggleClientMCPServer o saveOk env home cfg fs
        clientName serverName enable)).clients clientName =
      some { client with
        enabled := toggleEnabledList client.enabled serverName enable } := by
  unfold toggleClientMCPServer
  simp only [hc, hs, if_true]
  split
  · simp [toggleResCfg, alookup_aset_self]
  · split
    · simp [toggleResCfg, alookup_aset_self]
    · simp [toggleResCfg, alookup_aset_self]

theorem syncClientServers_fail_decomp (env : FsEnv) (cfg : ConfigM)
    (home : String) (cname : String) (en : List String) (ss : List String)
    (fs : FileSys) (c : String) (e : IOErr) (fs' : FileSys)
    (h : syncClientServers env cfg home cname en ss fs =
      SyncRes.fail c e fs') :
    c = cname ∧ ∃ spre s spost fsMid,
      ss = spre ++ s :: spost ∧
      syncClientServers env cfg home cname en spre fs = SyncRes.ok fsMid ∧
      updateMCPServerStatus env cfg home fsMid cname s (en.contains s) =
        FsRes.fail e fs' := by
  induction ss generalizing fs with
  | nil => simp [syncClientServers] at h
  | cons s rest ih =>
    simp only [syncClientServers] at h
    cases hu : updateMCPServerStatus env cfg home fs cname s (en.contains s) with
    | fail e0 fs0 =>
      simp only [hu] at h
      injection h with h1 h2 h3
      subst h1
      subst h2
      subst h3
      exact ⟨rfl, [], s, rest, fs, rfl, rfl, hu⟩
    | ok fs0 =>
      simp only [hu] at h
      obtain ⟨hcname, spre, s', spost, fsMid, hss, hpre, hfail⟩ := ih fs0 h
      refine ⟨hcname, s :: spre, s', spost, fsMid, by simp [hss], ?_, hfail⟩
      simp only [syncClientServers, hu]
      exact hpre

theorem syncAllClientsFrom_fail_decomp (env : FsEnv) (cfg : ConfigM)
    (home : String) (cs : AMap Client) (fs : FileSys) (c : String)
    (e : IOErr) (fs' : FileSys)
    (h : syncAllClientsFrom env cfg home cs fs = SyncRes.fail c e fs') :
    ∃ pre cl post fsPre,
      cs = pre ++ (c, cl) :: post ∧
      syncAllClientsFrom env cfg home pre fs = SyncRes.ok fsPre ∧
      syncClientServers env cfg home c cl.enabled
        (cfg.mcpServers.map Prod.fst) fsPre = SyncRes.fail c e fs' := by
  induction cs generalizing fs with
  | nil => simp [syncAllClientsFrom] at h
  | cons p rest ih =>
    obtain ⟨cname, client⟩ := p
    simp only [syncAllClientsFrom] at h
    cases hs : syncClientServers env cfg home cname client.enabled
        (cfg.mcpServers.map Prod.fst) fs with
    | fail c0 e0 fs0 =>
      simp only [hs] at h
      injection h with h1 h2 h3
      subst h1
      subst h2
      subst h3
      have hc := (syncClientServers_fail_decomp env cfg home cname
        client.enabled (cfg.mcpServers.map Prod.fst) fs c0 e0 fs0 hs).1
      subst hc
      exact ⟨[], client, rest, fs, rfl, rfl, hs⟩
    | ok fs0 =>
      simp only [hs] at h
      obtain ⟨pre, cl, post, fsPre, hcs, hpre, hfail⟩ := ih fs0 h
      refine ⟨(cname, client) :: pre, cl, post, fsPre, by simp [hcs], ?_, hfail⟩
      simp only [syncAllClientsFrom, hs]
      exact hpre

/-- C7 counterexample, both divergences at concrete inputs: (i) when the
name is already present but the config is invalid, the failure is the
validation error, not the duplicate-name error (validation runs first);
(ii) when per-server validation and the duplicate check pass but the
whole-registry save validation fails (here: no clients configured), the
call fails yet the server stays in the registry's collection. -/
theorem claimC7_counterexample :
    addServer ⟨fun _ => true, fun _ => none⟩ true
        ⟨[("x", [("command", JVal.jStr "echo")])], [("c1", ⟨"/p", []⟩)], 8080⟩
        "x" [] =
      AddRes.fail (MgrErr.validationFailed VErr.noTransportType)
        ⟨[("x", [("command", JVal.jStr "echo")])], [("c1", ⟨"/p", []⟩)], 8080⟩ ∧
    addServer ⟨fun _ => true, fun _ => none⟩ true ⟨[], [], 8080⟩
        "x" [("command", JVal.jStr "echo")] =
      AddRes.fail (MgrErr.saveFailed (SaveErr.validationFailed CErr.noClients))
        ⟨[("x", [("command", JVal.jStr "echo")])], [], 8080⟩ ∧
    ([("x", [("command", JVal.jStr "echo")])] : AMap (AMap JVal)) ≠ [] :=
  ⟨rfl, rfl, by simp⟩

/-- C7 amended: `addServer` validates the config first, so a failing
config yields the validation error with the registry unchanged; with a
valid config a duplicate name fails with the duplicate-name error and the
registry unchanged; with a valid config and a fresh name the server is
appended at the end (prior entries keep their order), and then either the
call succeeds, or the whole-registry save fails and the call reports that
failure with the appended server still in the registry (no rollback). -/
theorem claimC7_addServer (o : Oracles) (saveOk : Bool) (cfg : ConfigM)
    (serverName : String) (sc : AMap JVal) :
    (∀ e, validateMCPServerConfigA o serverName sc = Except.error e →
      addServer o saveOk cfg serverName sc =
        AddRes.fail (MgrErr.validationFailed e) cfg) ∧
    (validateMCPServerConfigA o serverName sc = Except.ok () →
      (alookup cfg.mcpServers serverName).isSome = true →
      addServer o saveOk cfg serverName sc =
        AddRes.fail (MgrErr.duplicateServerName serverName) cfg) ∧
    (validateMCPServerConfigA o serverName sc = Except.ok () →
      alookup cfg.mcpServers serverName = none →
      (addServer o saveOk cfg serverName sc =
          AddRes.ok ⟨cfg.mcpServers ++ [(serverName, sc)], cfg.clients,
            cfg.serverPort⟩ ∨
        ∃ e, addServer o saveOk cfg serverName sc =
          AddRes.fail (MgrErr.saveFailed e) ⟨cfg.mcpServers ++ [(serverName, sc)],
            cfg.clients, cfg.serverPort⟩)) := by
  refine ⟨fun e hv => ?_, fun hv hdup => ?_, fun hv habs => ?_⟩
  · simp [addServer, hv]
  · simp [addServer, hv, hdup]
  · have hset := aset_absent cfg.mcpServers serverName sc habs
    have hns : ¬(alookup cfg.mcpServers serverName).isSome = true := by
      simp [habs]
    cases hsv : saveConfigM o saveOk { cfg with
        mcpServers := aset cfg.mcpServers serverName sc } with
    | error e =>
      right
      refine ⟨e, ?_⟩
      simp only [addServer, hv, hns, if_false, hsv]
      rw [show ({ cfg with mcpServers := aset cfg.mcpServers serverName sc } :
        ConfigM) = ⟨cfg.mcpServers ++ [(serverName, sc)], cfg.clients,
          cfg.serverPort⟩ from by rw [← hset]]
      simp
    | ok u =>
      left
      simp only [addServer, hv, hns, if_false, hsv]
      rw [show ({ cfg with mcpServers := aset cfg.mcpServers serverName sc } :
        ConfigM) = ⟨cfg.mcpServers ++ [(serverName, sc)], cfg.clients,
          cfg.serverPort⟩ from by rw [← hset]]
      simp

/-- Witness for C7's amended theorem: adding a fresh valid server to a
valid registry succeeds with the server appended at the end. -/
theorem claimC7_witness :
    addServer ⟨fun _ => true, fun _ => none⟩ true
        ⟨[("s1", [("command", JVal.jStr "ls")])], [("c1", ⟨"/p", []⟩)], 8080⟩
        "s2" [("command", JVal.jStr "echo")] =
      AddRes.ok ⟨[("s1", [("command", JVal.jStr "ls")])] ++
        [("s2", [("command", JVal.jStr "echo")])],
        [("c1", ⟨"/p", []⟩)], 8080⟩ ∨
    ∃ e, addServer ⟨fun _ => true, fun _ => none⟩ true
        ⟨[("s1", [("command", JVal.jStr "ls")])], [("c1", ⟨"/p", []⟩)], 8080⟩
        "s2" [("command", JVal.jStr "echo")] =
      AddRes.fail (MgrErr.saveFailed e) ⟨[("s1", [("command", JVal.jStr "ls")])] ++
        [("s2", [("command", JVal.jStr "echo")])],
        [("c1", ⟨"/p", []⟩)], 8080⟩ :=
  (claimC7_addServer ⟨fun _ => true, fun _ => none⟩ true
    ⟨[("s1", [("command", JVal.jStr "ls")])], [("c1", ⟨"/p", []⟩)], 8080⟩
    "s2" [("command", JVal.jStr "echo")]).2.2 rfl rfl

/-- C8: with the client and server present, enabling stores back the
client with `serverName` added to its enabled list only when not already
there (so starting from a list holding it at most once, any non-empty
sequence of enables leaves exactly one occurrence), and disabling removes
every occurrence; this holds whether or not the subsequent save and
projection succeed, since the in-memory list mutation precedes them. -/
theorem claimC8_toggleClientServer (o : Oracles) (saveOk : Bool)
    (env : FsEnv) (home : String) (cfg : ConfigM) (fs : FileSys)
    (clientName serverName : String) (client : Client)
    (hc : alookup cfg.clients clientName = some client)
    (hs : (alookup cfg.mcpServers serverName).isSome = true) :
    (∀ enable, alookup (toggleResCfg (toggleClientMCPServer o saveOk env home
        cfg fs clientName serverName enable)).clients clientName =
      some { client with
        enabled := toggleEnabledList client.enabled serverName enable }) ∧
    (client.enabled.count serverName ≤ 1 →
      ∀ n, 1 ≤ n →
        ((fun l => toggleEnabledList l serverName true)^[n]
          client.enabled).count serverName = 1) ∧
    (toggleEnabledList client.enabled serverName false).count serverName = 0 :=
  ⟨fun enable => toggle_result_clients o saveOk env home cfg fs clientName
      serverName client enable hc hs,
    count_iterate_enable client.enabled serverName,
    count_toggle_disable client.enabled serverName⟩

/-- Witness for C8 at a concrete registry: after the toggle the client's
enabled list holds the server exactly once, two consecutive enables still
leave exactly one occurrence, and a disable leaves zero. -/
theorem claimC8_witness :
    (∀ enable, alookup (toggleResCfg (toggleClientMCPServer
        ⟨fun _ => true, fun _ => none⟩ true ⟨fun _ => true, "TS"⟩ "/home/u"
        ⟨[("s1", [("command", JVal.jStr "echo")])], [("c1", ⟨"/p.json", []⟩)], 8080⟩
        [] "c1" "s1" enable)).clients "c1" =
      some ⟨"/p.json", toggleEnabledList [] "s1" enable⟩) ∧
    (([] : List String).count "s1" ≤ 1 →
      ∀ n, 1 ≤ n →
        ((fun l => toggleEnabledList l "s1" true)^[n] []).count "s1" = 1) ∧
    (toggleEnabledList [] "s1" false).count "s1" = 0 :=
  claimC8_toggleClientServer ⟨fun _ => true, fun _ => none⟩ true
    ⟨fun _ => true, "TS"⟩ "/home/u"
    ⟨[("s1", [("command", JVal.jStr "echo")])], [("c1", ⟨"/p.json", []⟩)], 8080⟩
    [] "c1" "s1" ⟨"/p.json", []⟩ rfl rfl

/-- C10: `syncAllClients` is fail-fast.  Whenever it fails, the clients
split as `pre ++ (c, cl) :: post` and the servers as `spre ++ s :: spost`
such that every earlier client synced fully, every earlier server of `c`
updated successfully, and the failing call is `updateServerStatus` for
`(c, s)` with enabled equal to membership of `s` in `cl.enabled`; the
reported error pairs the client's name with the underlying error, and the
resulting filesystem is exactly the one the failing call left — no later
pair is attempted. -/
theorem claimC10_syncAllClients (env : FsEnv) (cfg : ConfigM)
    (home : String) (fs : FileSys) (c : String) (e : IOErr) (fs' : FileSys)
    (h : syncAllClients env cfg home fs = SyncRes.fail c e fs') :
    ∃ pre cl post fsPre spre s spost fsMid,
      cfg.clients = pre ++ (c, cl) :: post ∧
      syncAllClientsFrom env cfg home pre fs = SyncRes.ok fsPre ∧
      cfg.mcpServers.map Prod.fst = spre ++ s :: spost ∧
      syncClientServers env cfg home c cl.enabled spre fsPre =
        SyncRes.ok fsMid ∧
      updateMCPServerStatus env cfg home fsMid c s (cl.enabled.contains s) =
        FsRes.fail e fs' := by
  obtain ⟨pre, cl, post, fsPre, hcs, hpre, hfail⟩ :=
    syncAllClientsFrom_fail_decomp env cfg home cfg.clients fs c e fs' h
  obtain ⟨_, spre, s, spost, fsMid, hss, hmid, hupd⟩ :=
    syncClientServers_fail_decomp env cfg home c cl.enabled
      (cfg.mcpServers.map Prod.fst) fsPre c e fs' hfail
  exact ⟨pre, cl, post, fsPre, spre, s, spost, fsMid, hcs, hpre, hss,
    hmid, hupd⟩

/-- Witness for C10 at a concrete registry with two clients, the first of
which has an unparseable config file: the sync fails on the first (client,
server) pair with the parse error wrapped with that client's name, and the
second client's pair is never attempted. -/
theorem claimC10_witness :
    ∃ pre cl post fsPre spre s spost fsMid,
      ([("c1", (⟨"/a.json", []⟩ : Client)), ("c2", ⟨"/b.json", []⟩)] :
          AMap Client) = pre ++ ("c1", cl) :: post ∧
      syncAllClientsFrom ⟨fun _ => true, "TS"⟩
        ⟨[("s1", [("command", JVal.jStr "echo")])],
         [("c1", ⟨"/a.json", []⟩), ("c2", ⟨"/b.json", []⟩)], 8080⟩
        "/home/u" pre [("/a.json", FileContent.invalid)] = SyncRes.ok fsPre ∧
      ([("s1", [("command", JVal.jStr "echo")])] :
          AMap (AMap JVal)).map Prod.fst = spre ++ s :: spost ∧
      syncClientServers ⟨fun _ => true, "TS"⟩
        ⟨[("s1", [("command", JVal.jStr "echo")])],
         [("c1", ⟨"/a.json", []⟩), ("c2", ⟨"/b.json", []⟩)], 8080⟩
        "/home/u" "c1" cl.enabled spre fsPre = SyncRes.ok fsMid ∧
      updateMCPServerStatus ⟨fun _ => true, "TS"⟩
        ⟨[("s1", [("command", JVal.jStr "echo")])],
         [("c1", ⟨"/a.json", []⟩), ("c2", ⟨"/b.json", []⟩)], 8080⟩
        "/home/u" fsMid "c1" s (cl.enabled.contains s) =
        FsRes.fail (IOErr.parseFailed "/a.json")
          [("/a.json", FileContent.invalid)] :=
  claimC10_syncAllClients ⟨fun _ => true, "TS"⟩
    ⟨[("s1", [("command", JVal.jStr "echo")])],
     [("c1", ⟨"/a.json", []⟩), ("c2", ⟨"/b.json", []⟩)], 8080⟩
    "/home/u" [("/a.json", FileContent.invalid)] "c1"
    (IOErr.parseFailed "/a.json") [("/a.json", FileContent.invalid)] rfl

end MCPSM
